import Mathlib

/-!
Verification development for the glyph symbol-extraction engine.

The Go sources are shallowly embedded: source bytes become `List Char`,
tree-sitter nodes become records of byte/row ranges, a query match becomes
the list of its resolved (capture name, node) pairs, and the external
tree-sitter query compiler is an explicit parameter (`none` models a
compile failure).  Go `map` iteration order is unspecified, so functions
that range over a map take the iteration order as an explicit argument.
-/

namespace Glyph

/-- Detail level, from types.go: `Minimal | Standard | Full` (iota 0,1,2). -/
inductive DetailLevel where
  | Minimal
  | Standard
  | Full
deriving DecidableEq, Repr

/-- Numeric value of a detail level, matching the Go `iota` constants. -/
def DetailLevel.toNat : DetailLevel → Nat
  | .Minimal => 0
  | .Standard => 1
  | .Full => 2

/-- types.go `ParseDetailLevel`: case-insensitive, defaulting to Standard. -/
def ParseDetailLevel (detail : String) : DetailLevel :=
  if detail.toLower = "minimal" then .Minimal
  else if detail.toLower = "full" then .Full
  else .Standard

/-- Symbol record, from types.go. -/
structure Symbol where
  Name : String
  Kind : String
  StartLine : Nat
  EndLine : Nat
  Signature : String
  FilePath : String
deriving DecidableEq, Repr

/-- A tree-sitter node, reduced to the data the extractor reads:
byte offsets and (0-based) row numbers of its start and end points. -/
structure Node where
  startByte : Nat
  endByte : Nat
  startRow : Nat
  endRow : Nat
deriving DecidableEq, Repr

/-- Go slice `content[a:b]` on the embedded source text. -/
def slice (content : List Char) (a b : Nat) : List Char :=
  (content.take b).drop a

/-- Whitespace test used by Go `strings.TrimSpace` (ASCII cases agree
with `Char.isWhitespace`). -/
def wsp (c : Char) : Bool := c.isWhitespace

/-- Leading-whitespace trim. -/
def ltrim (l : List Char) : List Char := l.dropWhile wsp

/-- Trailing-whitespace trim. -/
def rtrim (l : List Char) : List Char := (l.reverse.dropWhile wsp).reverse

/-- Go `strings.TrimSpace` over the embedded text. -/
def trimChars (l : List Char) : List Char := rtrim (ltrim l)

/-- Body-start characters of `extractDeclarationSignature`
(symbol_extractor.go: `bodyIndicators := []string{"{", ":", "="}`). -/
def isBodyStart (c : Char) : Bool :=
  c = '{' || c = ':' || c = '='

/-- The scanning loop of `extractDeclarationSignature`
(symbol_extractor.go): walk `i` from `startByte` while
`i < endByte && i < len(content)` (the remaining iteration count is the
structural fuel); at a body-start character return the trimmed text
before it when that text is nonempty, else keep scanning.  `none` means
the loop fell through. -/
def extractDeclLoop (content : List Char) (startByte : Nat) :
    Nat → Nat → Option (List Char)
  | _, 0 => none
  | i, n + 1 =>
    if isBodyStart (content.getD i ' ') then
      let signature := trimChars (slice content startByte i)
      if signature.isEmpty then extractDeclLoop content startByte (i + 1) n
      else some signature
    else extractDeclLoop content startByte (i + 1) n

/-- symbol_extractor.go `extractDeclarationSignature`: scan the byte range
for a body indicator; fall back to the whole trimmed range. -/
def extractDeclarationSignature (content : List Char)
    (startByte endByte : Nat) : List Char :=
  match extractDeclLoop content startByte startByte
      (min endByte content.length - startByte) with
  | some s => s
  | none => trimChars (slice content startByte endByte)

/-- symbol_extractor.go `extractSignature`: full trimmed node text at
`Full`, otherwise the declaration signature. -/
def extractSignature (node : Node) (content : List Char)
    (detailLevel : DetailLevel) : List Char :=
  if detailLevel = .Full then
    trimChars (slice content node.startByte node.endByte)
  else
    extractDeclarationSignature content node.startByte node.endByte

/-- The declaration-root capture tags of `extractSymbolFromMatch`'s
`switch` (symbol_extractor.go). -/
def rootTags : List String :=
  ["function", "method", "class", "interface", "type", "const", "var",
   "struct", "enum", "record", "annotation", "constructor", "field"]

/-- The category-to-kind table of `mapSymbolKind` (symbol_extractor.go). -/
def kindPairs : List (String × String) :=
  [("functions", "func"),
   ("generator_functions", "func"),
   ("arrow_functions", "func"),
   ("function_expressions", "func"),
   ("methods", "method"),
   ("classes", "class"),
   ("interfaces", "interface"),
   ("types", "type"),
   ("constants", "const"),
   ("variables", "var"),
   ("structs", "struct"),
   ("enums", "enum"),
   ("records", "record"),
   ("annotations", "annotation"),
   ("constructors", "constructor"),
   ("fields", "field"),
   ("interface_constants", "field"),
   ("annotation_methods", "method"),
   ("async_functions", "func"),
   ("decorated_functions", "func"),
   ("decorated_classes", "class"),
   ("assignments", "var"),
   ("type_aliases", "type"),
   ("properties", "property")]

/-- symbol_extractor.go `mapSymbolKind`: table lookup with fall-through to
the raw category string. -/
def mapSymbolKind (symbolType : String) : String :=
  match kindPairs.find? (fun p => p.1 = symbolType) with
  | some p => p.2
  | none => symbolType

/-- Loop state of `extractSymbolFromMatch`: the symbol under construction
plus the `mainNode` and `nameNode` locals. -/
structure MatchState where
  symbol : Symbol
  mainNode : Option Node
  nameNode : Option Node

/-- One iteration of `extractSymbolFromMatch`'s capture loop
(symbol_extractor.go): a `name` capture sets the name, a declaration-root
capture overwrites `mainNode` and the line span. -/
def processCapture (content : List Char) (st : MatchState)
    (cap : String × Node) : MatchState :=
  if cap.1 = "name" then
    { st with
      nameNode := some cap.2
      symbol := { st.symbol with
        Name := String.mk (slice content cap.2.startByte cap.2.endByte) } }
  else if rootTags.contains cap.1 then
    { st with
      mainNode := some cap.2
      symbol := { st.symbol with
        StartLine := cap.2.startRow + 1
        EndLine := cap.2.endRow + 1 } }
  else st

/-- The symbol value at the top of `extractSymbolFromMatch`
(symbol_extractor.go): kind and file path set, everything else zero. -/
def initState (filePath symbolType : String) : MatchState :=
  { symbol := { Name := "", Kind := mapSymbolKind symbolType,
                StartLine := 0, EndLine := 0, Signature := "",
                FilePath := filePath }
    mainNode := none
    nameNode := none }

/-- The step after the capture loop: `if mainNode != nil && detailLevel >=
Standard`, attach the extracted signature. -/
def attachSignature (st : MatchState) (content : List Char)
    (detailLevel : DetailLevel) : Symbol :=
  match st.mainNode with
  | some mn =>
      if DetailLevel.Standard.toNat ≤ detailLevel.toNat then
        { st.symbol with
          Signature := String.mk (extractSignature mn content detailLevel) }
      else st.symbol
  | none => st.symbol

/-- The final step: `if mainNode == nil && nameNode != nil`, use the name
node's span for the line numbers. -/
def fallbackSpan (st : MatchState) (sym1 : Symbol) : Symbol :=
  match st.mainNode, st.nameNode with
  | none, some nn =>
      { sym1 with StartLine := nn.startRow + 1, EndLine := nn.endRow + 1 }
  | _, _ => sym1

/-- symbol_extractor.go `extractSymbolFromMatch`: fold the capture loop,
then attach the signature (when a main node exists and detail is at least
Standard), then fall back to the name node's span when no main node. -/
def extractSymbolFromMatch (captures : List (String × Node))
    (content : List Char) (filePath symbolType : String)
    (detailLevel : DetailLevel) : Symbol :=
  let st := captures.foldl (processCapture content) (initState filePath symbolType)
  fallbackSpan st (attachSignature st content detailLevel)

/-- Whether position `i` is one at which the scanning loop of
`extractDeclarationSignature` stops: a body-start character whose
preceding text trims to a nonempty string. -/
def goodAt (content : List Char) (startByte i : Nat) : Bool :=
  isBodyStart (content.getD i ' ') &&
    !(trimChars (slice content startByte i)).isEmpty

/-- The declaration-root capture that `extractSymbolFromMatch`'s loop ends
up keeping in `mainNode`: the last capture whose name is a root tag. -/
def findLastRoot : List (String × Node) → Option Node
  | [] => none
  | c :: rest =>
    match findLastRoot rest with
    | some n => some n
    | none => if rootTags.contains c.1 then some c.2 else none

/-- symbol_extractor.go `executeQuery`.  The external tree-sitter query
compiler and cursor are abstracted into `newQuery`: `none` models
`sitter.NewQuery` failing, `some matches` the stream of matches with their
capture names already resolved.  Matches whose symbol has an empty name
are dropped. -/
def executeQuery (newQuery : String → Option (List (List (String × Node))))
    (content : List Char) (filePath queryStr symbolType : String)
    (detailLevel : DetailLevel) : Except String (List Symbol) :=
  match newQuery queryStr with
  | none => .error ("failed to create query for " ++ symbolType)
  | some ms =>
      .ok ((ms.map (fun m =>
              extractSymbolFromMatch m content filePath symbolType detailLevel)).filter
            (fun s => s.Name ≠ ""))

/-- symbol_extractor.go `extractSymbolsFromTree`: run every category query,
skipping categories whose query fails, in the (unspecified) order the Go
map range yields them — here passed explicitly as the `queries` list. -/
def extractSymbolsFromTree
    (newQuery : String → Option (List (List (String × Node))))
    (content : List Char) (filePath : String)
    (queries : List (String × String)) (detailLevel : DetailLevel) :
    List Symbol :=
  queries.foldl
    (fun acc cq =>
      match executeQuery newQuery content filePath cq.2 cq.1 detailLevel with
      | .error _ => acc
      | .ok symbols => acc ++ symbols)
    []

/-- Category keys of `goQueries` (queries.go); the pattern strings are
external tree-sitter query text, irrelevant to the claims. -/
def goQueryCategories : List String :=
  ["functions", "methods", "types", "constants", "variables",
   "interfaces", "structs"]

/-- Category keys of `javaQueries` (queries.go). -/
def javaQueryCategories : List String :=
  ["classes", "interfaces", "methods", "constructors", "fields",
   "enums", "records", "annotations"]

/-- Category keys of `javascriptQueries` (queries.go). -/
def javascriptQueryCategories : List String :=
  ["functions", "arrow_functions", "classes", "methods", "variables"]

/-- Category keys of `pythonQueries` (queries.go). -/
def pythonQueryCategories : List String :=
  ["functions", "classes", "decorated_functions", "decorated_classes",
   "assignments"]

/-- Category keys of `typescriptQueries` (queries.go). -/
def typescriptQueryCategories : List String :=
  ["functions", "interfaces", "type_aliases", "classes", "methods",
   "properties"]

/-- Every category key appearing in any language's query table. -/
def allQueryCategories : List String :=
  goQueryCategories ++ javaQueryCategories ++ javascriptQueryCategories ++
    pythonQueryCategories ++ typescriptQueryCategories

/-- The closed vocabulary of normalized kind tags (spec section 3). -/
def normalizedKinds : List String :=
  ["func", "method", "class", "interface", "struct", "type", "const",
   "var", "field", "constructor", "enum", "record", "annotation",
   "property"]

/-- formatter.go `formatSymbol`: render one symbol according to the detail
level (`fmt.Sprintf` calls spelled out as concatenation). -/
def formatSymbol (symbol : Symbol) (detailLevel : DetailLevel)
    (indent : Nat) : String :=
  let indentStr := String.join (List.replicate indent "  ")
  match detailLevel with
  | .Minimal =>
      indentStr ++ "- " ++ symbol.Kind ++ ": " ++ symbol.Name ++
        " (line " ++ toString symbol.StartLine ++ ")\n"
  | .Standard =>
      if symbol.Signature ≠ "" then
        if symbol.Kind = "var" ∨ symbol.Kind = "const" then
          if symbol.Signature = symbol.Name then
            indentStr ++ "- " ++ symbol.Kind ++ ": " ++ symbol.Name ++ "\n"
          else
            indentStr ++ "- " ++ symbol.Kind ++ ": " ++ symbol.Name ++ " " ++
              symbol.Signature ++ "\n"
        else
          indentStr ++ "- " ++ symbol.Kind ++ ": " ++ symbol.Signature ++ "\n"
      else
        indentStr ++ "- " ++ symbol.Kind ++ ": " ++ symbol.Name ++
          " (lines " ++ toString symbol.StartLine ++ "-" ++
          toString symbol.EndLine ++ ")\n"
  | .Full =>
      indentStr ++ "- " ++ symbol.Kind ++ " (lines " ++
        toString symbol.StartLine ++ "-" ++ toString symbol.EndLine ++
        "):\n" ++
      (if symbol.Signature ≠ "" then
        indentStr ++ "  ```\n" ++ indentStr ++ "  " ++ symbol.Signature ++
          "\n" ++ indentStr ++ "  ```\n"
      else "")

/-- The bucket a file path gets in `FormatSymbols`' `fileSymbols` map:
appends preserve the input order of that file's symbols. -/
def fileGroup (symbols : List Symbol) (file : String) : List Symbol :=
  symbols.filter (fun s => s.FilePath = file)

/-- The key set of the `fileSymbols` map, in first-seen order. -/
def firstSeenFiles (symbols : List Symbol) : List String :=
  symbols.foldl
    (fun acc s => if acc.contains s.FilePath then acc else acc ++ [s.FilePath])
    []

/-- One per-file section of the formatter's output. -/
def formatFileSection (file : String) (syms : List Symbol)
    (detailLevel : DetailLevel) : String :=
  "## " ++ file ++ "\n\n" ++
    String.join (syms.map (fun s => formatSymbol s detailLevel 0)) ++ "\n"

/-- formatter.go `FormatSymbols`.  The Go code ranges over the
`fileSymbols` map, whose iteration order is unspecified (randomized by the
Go runtime); that order is made an explicit argument `order`.  A run of
the Go function corresponds to some `order` that is a permutation of
`firstSeenFiles symbols`. -/
def FormatSymbolsWithOrder (symbols : List Symbol)
    (detailLevel : DetailLevel) (order : List String) : String :=
  if symbols.isEmpty then "No symbols found"
  else
    "# Symbol Outline\n\n" ++
      String.join (order.map
        (fun f => formatFileSection f (fileGroup symbols f) detailLevel))

/-- The collaborators of extract.go `ExtractSymbols`: file discovery,
per-file extraction, and the map iteration order the final
`FormatSymbols` call will see. -/
structure ExtractEnv where
  findFiles : String → Except String (List String)
  extractFromFile : String → DetailLevel → Except String (List Symbol)
  mapIterOrder : List Symbol → List String

/-- extract.go `ExtractSymbols`: discover files, extract per file
(skipping failures), and format; empty file list and empty symbol list
return fixed informational messages as successful results. -/
def ExtractSymbols (env : ExtractEnv) (pattern detail : String) :
    Except String String :=
  let detailLevel := ParseDetailLevel detail
  match env.findFiles pattern with
  | .error e => .error ("failed to find files: " ++ e)
  | .ok files =>
      if files.isEmpty then
        .ok ("No files found matching pattern: " ++ pattern)
      else
        let allSymbols := files.foldl
          (fun acc f =>
            match env.extractFromFile f detailLevel with
            | .error _ => acc
            | .ok symbols => acc ++ symbols)
          []
        if allSymbols.isEmpty then .ok "No symbols found"
        else .ok (FormatSymbolsWithOrder allSymbols detailLevel
                    (env.mapIterOrder allSymbols))

/-! Helper lemmas about trimming and list order. -/

theorem pre_refl (l : List Char) : l <+: l :=
  ⟨[], List.append_nil l⟩

theorem pre_trans {a b c : List Char} (h₁ : a <+: b) (h₂ : b <+: c) :
    a <+: c := by
  obtain ⟨t, rfl⟩ := h₁
  obtain ⟨u, rfl⟩ := h₂
  exact ⟨t ++ u, (List.append_assoc a t u).symm⟩

theorem pre_drop {a b : List Char} (n : Nat) (h : a <+: b) :
    a.drop n <+: b.drop n := by
  obtain ⟨t, rfl⟩ := h
  exact ⟨t.drop (n - a.length), (List.drop_append_eq_append_drop).symm⟩

theorem pre_take_le (l : List Char) {i j : Nat} (h : i ≤ j) :
    l.take i <+: l.take j := by
  refine ⟨(l.take j).drop i, ?_⟩
  have hi : l.take i = (l.take j).take i := by
    rw [List.take_take, Nat.min_eq_left h]
  rw [hi, List.take_append_drop]

theorem slice_mono (content : List Char) (s : Nat) {i j : Nat} (h : i ≤ j) :
    slice content s i <+: slice content s j :=
  pre_drop s (pre_take_le content h)

theorem pre_dropWhile (p : Char → Bool) :
    ∀ (a b : List Char), a <+: b → a.dropWhile p <+: b.dropWhile p
  | [], b, _ => ⟨b.dropWhile p, by simp⟩
  | x :: a', _, h => by
    obtain ⟨t, rfl⟩ := h
    rw [List.cons_append, List.dropWhile_cons, List.dropWhile_cons]
    by_cases hx : p x = true
    · simp only [hx, if_true]
      exact pre_dropWhile p a' (a' ++ t) ⟨t, rfl⟩
    · simp only [hx, if_false]
      exact ⟨t, rfl⟩

theorem dw_suf (p : Char → Bool) :
    ∀ (m : List Char), ∃ u, u ++ m.dropWhile p = m
  | [] => ⟨[], rfl⟩
  | x :: m' => by
    rw [List.dropWhile_cons]
    by_cases hx : p x = true
    · obtain ⟨u, hu⟩ := dw_suf p m'
      exact ⟨x :: u, by simp [hx, hu]⟩
    · exact ⟨[], by simp [hx]⟩

theorem rtrim_pre (l : List Char) : rtrim l <+: l := by
  obtain ⟨u, hu⟩ := dw_suf wsp l.reverse
  refine ⟨u.reverse, ?_⟩
  have := congrArg List.reverse hu
  rw [List.reverse_append, List.reverse_reverse] at this
  exact this

theorem head_dw_false (p : Char → Bool) :
    ∀ (m : List Char) (c : Char), (m.dropWhile p).head? = some c → p c = false
  | [], c, h => by simp at h
  | x :: m', c, h => by
    rw [List.dropWhile_cons] at h
    by_cases hx : p x = true
    · rw [if_pos hx] at h
      exact head_dw_false p m' c h
    · rw [if_neg hx] at h
      simp only [List.head?_cons, Option.some.injEq] at h
      subst h
      exact Bool.not_eq_true _ |>.mp hx

theorem rtrim_last (l : List Char) :
    ∀ c, (rtrim l).getLast? = some c → wsp c = false := by
  intro c hc
  apply head_dw_false wsp l.reverse c
  rw [← List.head?_reverse] at hc
  rw [rtrim, List.reverse_reverse] at hc
  exact hc

theorem suf_dw (p : Char → Bool) :
    ∀ (m r : List Char), (∃ u, u ++ r = m) →
      (∀ c, r.head? = some c → p c = false) →
      ∃ u, u ++ r = m.dropWhile p
  | [], r, hsuf, _ => by
    obtain ⟨u, hu⟩ := hsuf
    have hr : r = [] := by
      cases u <;> simp_all
    exact ⟨[], by simp [hr]⟩
  | x :: m', r, hsuf, hhead => by
    obtain ⟨u, hu⟩ := hsuf
    rw [List.dropWhile_cons]
    match u, hu with
    | [], hu =>
      have hr : r = x :: m' := by simpa using hu
      have hpx : p x = false := hhead x (by rw [hr]; rfl)
      rw [if_neg (by simp [hpx])]
      exact ⟨[], hr⟩
    | y :: u', hu =>
      have hy : y = x ∧ u' ++ r = m' := by
        constructor
        · exact (List.cons.injEq _ _ _ _).mp (by simpa using hu) |>.1
        · exact (List.cons.injEq _ _ _ _).mp (by simpa using hu) |>.2
      by_cases hx : p x = true
      · rw [if_pos hx]
        exact suf_dw p m' r ⟨u', hy.2⟩ hhead
      · rw [if_neg hx]
        exact ⟨y :: u', hu⟩

theorem pre_rtrim {a b : List Char} (h : a <+: b)
    (ha : ∀ c, a.getLast? = some c → wsp c = false) : a <+: rtrim b := by
  obtain ⟨t, rfl⟩ := h
  have hsuf : ∃ u, u ++ a.reverse = (a ++ t).reverse :=
    ⟨t.reverse, by rw [List.reverse_append]⟩
  have hhead : ∀ c, a.reverse.head? = some c → wsp c = false := by
    intro c hc
    exact ha c (by rwa [← List.head?_reverse])
  obtain ⟨u, hu⟩ := suf_dw wsp (a ++ t).reverse a.reverse hsuf hhead
  refine ⟨u.reverse, ?_⟩
  have := congrArg List.reverse hu
  rw [List.reverse_append, List.reverse_reverse] at this
  rw [rtrim, ← this]

theorem trim_mono {a b : List Char} (h : a <+: b) :
    trimChars a <+: trimChars b := by
  have h1 : ltrim a <+: ltrim b := pre_dropWhile wsp a b h
  have h2 : trimChars a <+: ltrim a := rtrim_pre (ltrim a)
  exact pre_rtrim (pre_trans h2 h1) (rtrim_last (ltrim a))

/-! Characterization of the signature-scan loop. -/

theorem loop_eq_find (content : List Char) (s : Nat) :
    ∀ (n i : Nat),
      extractDeclLoop content s i n =
        ((List.range' i n).find? (goodAt content s)).map
          (fun j => trimChars (slice content s j))
  | 0, i => by simp [extractDeclLoop]
  | n + 1, i => by
    cases hb1 : isBodyStart (content.getD i ' ') with
    | true =>
      cases hb2 : (trimChars (slice content s i)).isEmpty with
      | true =>
        have hstep : extractDeclLoop content s i (n + 1) =
            extractDeclLoop content s (i + 1) n := by
          simp only [extractDeclLoop]
          rw [hb1, hb2]
          simp
        rw [hstep, loop_eq_find content s n (i + 1), List.range'_succ,
          List.find?_cons_of_neg _
            (by simp only [goodAt]; rw [hb1, hb2]; decide)]
      | false =>
        have hstep : extractDeclLoop content s i (n + 1) =
            some (trimChars (slice content s i)) := by
          simp only [extractDeclLoop]
          rw [hb1, hb2]
          simp
        rw [hstep, List.range'_succ,
          List.find?_cons_of_pos _
            (by simp only [goodAt]; rw [hb1, hb2]; decide)]
        rfl
    | false =>
      have hstep : extractDeclLoop content s i (n + 1) =
          extractDeclLoop content s (i + 1) n := by
        simp only [extractDeclLoop]
        rw [hb1]
        simp
      rw [hstep, loop_eq_find content s n (i + 1), List.range'_succ,
        List.find?_cons_of_neg _
          (by simp only [goodAt]; rw [hb1]; simp)]

theorem scan_characterization (content : List Char) (startByte endByte : Nat) :
    extractDeclarationSignature content startByte endByte =
      match (List.range' startByte (min endByte content.length - startByte)).find?
          (goodAt content startByte) with
      | some i => trimChars (slice content startByte i)
      | none => trimChars (slice content startByte endByte) := by
  unfold extractDeclarationSignature
  rw [loop_eq_find]
  cases (List.range' startByte (min endByte content.length - startByte)).find?
      (goodAt content startByte) <;> rfl

/-! Facts about the capture-loop fold. -/

theorem fold_sig (content : List Char) :
    ∀ (caps : List (String × Node)) (st : MatchState),
      (caps.foldl (processCapture content) st).symbol.Signature =
        st.symbol.Signature
  | [], _ => rfl
  | c :: rest, st => by
    rw [List.foldl_cons, fold_sig content rest]
    unfold processCapture
    by_cases h1 : c.1 = "name"
    · simp [h1]
    · by_cases h2 : c.1 ∈ rootTags
      · simp [h1, h2]
      · simp [h1, h2]

theorem fold_name_kind (content : List Char) :
    ∀ (caps : List (String × Node)) (st : MatchState),
      (caps.foldl (processCapture content) st).symbol.Kind =
        st.symbol.Kind ∧
      (caps.foldl (processCapture content) st).symbol.FilePath =
        st.symbol.FilePath
  | [], _ => ⟨rfl, rfl⟩
  | c :: rest, st => by
    rw [List.foldl_cons]
    have ih := fold_name_kind content rest (processCapture content st c)
    refine ⟨ih.1.trans ?_, ih.2.trans ?_⟩ <;>
      · unfold processCapture
        by_cases h1 : c.1 = "name"
        · simp [h1]
        · by_cases h2 : c.1 ∈ rootTags
          · simp [h1, h2]
          · simp [h1, h2]

theorem fold_root (content : List Char) :
    ∀ (caps : List (String × Node)) (st : MatchState),
      ((caps.foldl (processCapture content) st).mainNode,
       (caps.foldl (processCapture content) st).symbol.StartLine,
       (caps.foldl (processCapture content) st).symbol.EndLine) =
        match findLastRoot caps with
        | some n => (some n, n.startRow + 1, n.endRow + 1)
        | none => (st.mainNode, st.symbol.StartLine, st.symbol.EndLine)
  | [], _ => rfl
  | c :: rest, st => by
    rw [List.foldl_cons]
    have ih := fold_root content rest (processCapture content st c)
    cases hrest : findLastRoot rest with
    | some n =>
      rw [hrest] at ih
      have hl : findLastRoot (c :: rest) = some n := by
        simp [findLastRoot, hrest]
      rw [hl]
      exact ih
    | none =>
      rw [hrest] at ih
      have hl : findLastRoot (c :: rest) =
          if rootTags.contains c.1 then some c.2 else none := by
        simp [findLastRoot, hrest]
      rw [hl, ih]
      by_cases h1 : c.1 = "name"
      · have hroot : ("name" : String) ∉ rootTags := by decide
        simp [processCapture, h1, hroot]
      · by_cases h2 : c.1 ∈ rootTags
        · simp [processCapture, h1, h2]
        · simp [processCapture, h1, h2]

theorem flr_none :
    ∀ (caps : List (String × Node)),
      (∀ p ∈ caps, rootTags.contains p.1 = false) → findLastRoot caps = none
  | [], _ => rfl
  | c :: rest, h => by
    have hrest := flr_none rest (fun p hp => h p (List.mem_cons_of_mem c hp))
    have hc : c.1 ∉ rootTags := by
      simpa using h c (List.mem_cons_self c rest)
    simp [findLastRoot, hrest, hc]

/-! Concrete inputs used by counterexamples and witnesses. -/

/-- A declaration range whose first body-start character is at offset 0,
so the text before it trims to empty: the Go code skips it and stops at
the later one. -/
def c1content : List Char := ['\x7b', 'x', ' ', '=', ' ', '1', '\x7d']

/-- Two symbols in two files: the minimal shape on which the formatter's
file-section order is observable. -/
def c2syms : List Symbol :=
  [{ Name := "a", Kind := "func", StartLine := 1, EndLine := 1,
     Signature := "", FilePath := "a.go" },
   { Name := "b", Kind := "func", StartLine := 1, EndLine := 1,
     Signature := "", FilePath := "b.go" }]

/-- A match carrying two declaration-root captures with different spans. -/
def c3caps : List (String × Node) :=
  [("name", ⟨5, 6, 0, 0⟩), ("function", ⟨0, 10, 0, 0⟩),
   ("method", ⟨20, 30, 4, 9⟩)]

/-- Source text for the two-root-capture match. -/
def c3content : List Char :=
  "func x() \x7b\x7dxxxxxxxxxxxxxxxxxxx".toList

/-- A query-compiler stub whose every query yields one match with a sole
name capture. -/
def c4query : String → Option (List (List (String × Node))) :=
  fun _ => some [[("name", ⟨0, 1, 0, 0⟩)]]

/-- A query-compiler stub that fails on the query text "bad" and succeeds
elsewhere. -/
def c6query : String → Option (List (List (String × Node))) :=
  fun q => if q = "bad" then none else some [[("name", ⟨0, 1, 0, 0⟩)]]

/-- Collaborators for a call whose file discovery finds nothing. -/
def envNoFiles : ExtractEnv :=
  { findFiles := fun _ => .ok []
    extractFromFile := fun _ _ => .ok []
    mapIterOrder := fun _ => [] }

/-- Collaborators for a call that finds one file of an unsupported type. -/
def envNoSymbols : ExtractEnv :=
  { findFiles := fun _ => .ok ["f.txt"]
    extractFromFile := fun _ _ => .error "unsupported file type: f.txt"
    mapIterOrder := fun _ => [] }

/-! Claims. -/

/-- C1 counterexample: in the range `{x = 1}` the first body-start
character is the brace at offset 0, whose preceding text trims to empty;
the claim then demands the empty result, but
`extractDeclarationSignature` skips that occurrence and returns the text
before the later `=` instead. -/
theorem c1_counterexample :
    (List.range' 0 7).find?
        (fun i => isBodyStart (c1content.getD i ' ')) = some 0 ∧
    trimChars (slice c1content 0 0) = [] ∧
    extractDeclarationSignature c1content 0 7 = ['\x7b', 'x'] := by
  decide

/-- C1 (amended): the Standard-level scan returns the trimmed text
strictly before the first body-start character whose preceding text in
the range trims to a nonempty string; if there is no such character, it
returns the trimmed text of the whole range. -/
theorem c1_amended_scan (content : List Char) (startByte endByte : Nat) :
    extractDeclarationSignature content startByte endByte =
      match (List.range' startByte
          (min endByte content.length - startByte)).find?
          (goodAt content startByte) with
      | some i => trimChars (slice content startByte i)
      | none => trimChars (slice content startByte endByte) :=
  scan_characterization content startByte endByte

/-- C2 (code bug): `FormatSymbols` ranges over the Go map `fileSymbols`,
whose iteration order is unspecified; the order `["b.go", "a.go"]` is a
permutation of the map's keys, hence an admissible run of the Go code,
and it produces output that differs byte-for-byte from the first-seen
order — so neither first-seen file order nor byte-identical repetition
is guaranteed. -/
theorem c2_formatter_order_bug :
    List.Perm ["b.go", "a.go"] (firstSeenFiles c2syms) ∧
    FormatSymbolsWithOrder c2syms .Minimal ["b.go", "a.go"] ≠
      FormatSymbolsWithOrder c2syms .Minimal (firstSeenFiles c2syms) := by
  constructor
  · have h : firstSeenFiles c2syms = ["a.go", "b.go"] := rfl
    rw [h]
    exact List.Perm.swap "a.go" "b.go" []
  · decide

/-- C3 counterexample: the match `c3caps` carries the root-tag captures
`function` (rows 0–0) and `method` (rows 4–9) in that order; the claim
predicts the first one supplies the line span (startLine 1), but the code
keeps the last one, yielding startLine 5. -/
theorem c3_counterexample :
    (c3caps.find? (fun p => rootTags.contains p.1)).map
        (fun p => p.2.startRow + 1) = some 1 ∧
    (extractSymbolFromMatch c3caps c3content "f.go" "functions"
        .Standard).StartLine = 5 := by
  decide

/-- C3 (amended): among the captures whose name is a declaration-root
tag, the last such capture encountered in the match's capture sequence
becomes the declaration node that supplies startLine and endLine and
whose byte range is used for signature extraction. -/
theorem c3_last_root_capture_wins (caps : List (String × Node))
    (content : List Char) (filePath symbolType : String)
    (detailLevel : DetailLevel) (n : Node)
    (h : findLastRoot caps = some n) :
    (extractSymbolFromMatch caps content filePath symbolType
        detailLevel).StartLine = n.startRow + 1 ∧
    (extractSymbolFromMatch caps content filePath symbolType
        detailLevel).EndLine = n.endRow + 1 ∧
    (DetailLevel.Standard.toNat ≤ detailLevel.toNat →
      (extractSymbolFromMatch caps content filePath symbolType
          detailLevel).Signature =
        String.mk (extractSignature n content detailLevel)) := by
  have hr := fold_root content caps (initState filePath symbolType)
  rw [h] at hr
  simp only [Prod.mk.injEq] at hr
  obtain ⟨hmn, hsl, hel⟩ := hr
  simp only [extractSymbolFromMatch, fallbackSpan, attachSignature, hmn]
  by_cases hd : DetailLevel.Standard.toNat ≤ detailLevel.toNat
  · simp [hd, hsl, hel]
  · simp [hd, hsl, hel]

/-- C3 witness: on the concrete two-root-capture match, the line span
comes from the method capture (rows 4–9). -/
theorem c3_last_root_capture_wins_witness :
    (extractSymbolFromMatch c3caps c3content "f.go" "functions"
        .Standard).StartLine = 4 + 1 :=
  (c3_last_root_capture_wins c3caps c3content "f.go" "functions"
    .Standard ⟨20, 30, 4, 9⟩ (by decide)).1

/-- Symbols delivered by a successful `executeQuery` all carry nonempty
names (the Go loop appends only when `symbol.Name != ""`). -/
theorem exeq_ok_names {newQuery : String → Option (List (List (String × Node)))}
    {content : List Char} {filePath queryStr symbolType : String}
    {detailLevel : DetailLevel} {syms : List Symbol}
    (hok : executeQuery newQuery content filePath queryStr symbolType
        detailLevel = .ok syms) :
    ∀ s ∈ syms, s.Name ≠ "" := by
  unfold executeQuery at hok
  cases hq : newQuery queryStr with
  | none =>
    rw [hq] at hok
    exact absurd hok (by simp)
  | some ms =>
    rw [hq] at hok
    simp only [Except.ok.injEq] at hok
    subst hok
    intro s hs
    have hmem := List.mem_filter.mp hs
    exact of_decide_eq_true hmem.2

/-- C4: every symbol in the extractor's output for a file has a nonempty
name; a match with no name capture (or an empty name text) contributes
nothing. -/
theorem c4_nonempty_names
    (newQuery : String → Option (List (List (String × Node))))
    (content : List Char) (filePath : String)
    (queries : List (String × String)) (detailLevel : DetailLevel) :
    ∀ s ∈ extractSymbolsFromTree newQuery content filePath queries
        detailLevel, s.Name ≠ "" := by
  suffices h : ∀ (qs : List (String × String)) (acc : List Symbol),
      (∀ s ∈ acc, s.Name ≠ "") →
      ∀ s ∈ qs.foldl
        (fun acc cq =>
          match executeQuery newQuery content filePath cq.2 cq.1 detailLevel with
          | .error _ => acc
          | .ok symbols => acc ++ symbols)
        acc, s.Name ≠ "" by
    intro s hs
    unfold extractSymbolsFromTree at hs
    exact h queries [] (by simp) s hs
  intro qs
  induction qs with
  | nil =>
    intro acc hacc s hs
    exact hacc s hs
  | cons cq rest ih =>
    intro acc hacc s hs
    rw [List.foldl_cons] at hs
    refine ih _ ?_ s hs
    intro t ht
    cases hq : executeQuery newQuery content filePath cq.2 cq.1 detailLevel with
    | error e =>
      rw [hq] at ht
      exact hacc t ht
    | ok syms =>
      rw [hq] at ht
      rcases List.mem_append.mp ht with hta | hts
      · exact hacc t hta
      · exact exeq_ok_names hq t hts

/-- C4 witness: a concrete run whose single match has the name capture
`x`; the emitted symbol's name is nonempty. -/
theorem c4_nonempty_names_witness :
    ({ Name := "x", Kind := "func", StartLine := 1, EndLine := 1,
       Signature := "", FilePath := "f.go" } : Symbol).Name ≠ "" :=
  c4_nonempty_names c4query ['x'] "f.go" [("functions", "q")] .Minimal _
    (by decide)

/-- When every found file yields no symbols (by error or by an empty
list), the accumulating fold of `ExtractSymbols` stays empty. -/
theorem foldl_empty_syms (env : ExtractEnv) (detailLevel : DetailLevel) :
    ∀ (files : List String) (acc : List Symbol),
      (∀ f ∈ files, ∀ syms,
        env.extractFromFile f detailLevel = .ok syms → syms = []) →
      files.foldl
        (fun acc f =>
          match env.extractFromFile f detailLevel with
          | .error _ => acc
          | .ok symbols => acc ++ symbols)
        acc = acc
  | [], _, _ => rfl
  | f :: rest, acc, h => by
    rw [List.foldl_cons]
    have hstep : (match env.extractFromFile f detailLevel with
        | .error _ => acc
        | .ok symbols => acc ++ symbols) = acc := by
      cases hf : env.extractFromFile f detailLevel with
      | error e => rfl
      | ok syms =>
        have hs := h f (List.mem_cons_self f rest) syms hf
        simp [hs]
    rw [hstep]
    exact foldl_empty_syms env detailLevel rest acc
      (fun g hg => h g (List.mem_cons_of_mem f hg))

/-- C5: with zero discovered files the extraction returns the successful
message "No files found matching pattern: <pattern>"; with files found
but zero extracted symbols it returns the successful message "No symbols
found". -/
theorem c5_empty_messages (env : ExtractEnv) (pattern detail : String) :
    (env.findFiles pattern = .ok [] →
      ExtractSymbols env pattern detail =
        .ok ("No files found matching pattern: " ++ pattern)) ∧
    (∀ files, env.findFiles pattern = .ok files → files ≠ [] →
      (∀ f ∈ files, ∀ syms,
        env.extractFromFile f (ParseDetailLevel detail) = .ok syms →
          syms = []) →
      ExtractSymbols env pattern detail = .ok "No symbols found") := by
  constructor
  · intro h
    simp only [ExtractSymbols]
    rw [h]
    rfl
  · intro files hfind hne hempty
    simp only [ExtractSymbols]
    rw [hfind]
    have hine : files.isEmpty = false := by
      cases files with
      | nil => exact absurd rfl hne
      | cons a l => rfl
    simp only [hine, Bool.false_eq_true, if_false]
    rw [foldl_empty_syms env (ParseDetailLevel detail) files [] hempty]
    rfl

/-- C5 witness: a discovery returning no files yields the no-files
message; one unsupported file yields the no-symbols message. -/
theorem c5_empty_messages_witness :
    ExtractSymbols envNoFiles "p" "standard" =
      .ok ("No files found matching pattern: " ++ "p") ∧
    ExtractSymbols envNoSymbols "p" "standard" = .ok "No symbols found" :=
  ⟨(c5_empty_messages envNoFiles "p" "standard").1 rfl,
   (c5_empty_messages envNoSymbols "p" "standard").2 ["f.txt"] rfl
     (by simp) (fun _ _ _ h => Except.noConfusion h)⟩

/-- C6: a category whose query fails to compile contributes zero symbols
and leaves every other category's symbols for the same file unchanged:
deleting the failing entry from the iterated query list does not change
the result. -/
theorem c6_category_local_failure
    (newQuery : String → Option (List (List (String × Node))))
    (content : List Char) (filePath : String)
    (pre post : List (String × String)) (category badQuery : String)
    (detailLevel : DetailLevel)
    (hbad : newQuery badQuery = none) :
    extractSymbolsFromTree newQuery content filePath
        (pre ++ (category, badQuery) :: post) detailLevel =
      extractSymbolsFromTree newQuery content filePath (pre ++ post)
        detailLevel := by
  unfold extractSymbolsFromTree
  rw [List.foldl_append, List.foldl_append, List.foldl_cons]
  have hstep : executeQuery newQuery content filePath badQuery category
      detailLevel = .error ("failed to create query for " ++ category) := by
    unfold executeQuery
    rw [hbad]
  simp only [hstep]

/-- C6 witness: dropping the category with the uncompilable query "bad"
leaves the result of the remaining category untouched. -/
theorem c6_category_local_failure_witness :
    extractSymbolsFromTree c6query ['x'] "f.go"
        [("functions", "ok"), ("methods", "bad")] .Minimal =
      extractSymbolsFromTree c6query ['x'] "f.go" [("functions", "ok")]
        .Minimal :=
  c6_category_local_failure c6query ['x'] "f.go" [("functions", "ok")] []
    "methods" "bad" .Minimal (by decide)

/-- C7: a symbol built at Minimal detail carries the empty signature, and
for any declaration node the Standard-level signature is a prefix of (or
equal to) the Full-level signature. -/
theorem c7_detail_monotonicity (caps : List (String × Node))
    (content : List Char) (filePath symbolType : String) (node : Node) :
    (extractSymbolFromMatch caps content filePath symbolType
        .Minimal).Signature = "" ∧
    extractSignature node content .Standard <+:
      extractSignature node content .Full := by
  constructor
  · simp only [extractSymbolFromMatch]
    have hsig : (caps.foldl (processCapture content)
        (initState filePath symbolType)).symbol.Signature = "" :=
      fold_sig content caps (initState filePath symbolType)
    have hatt : attachSignature
        (caps.foldl (processCapture content) (initState filePath symbolType))
        content .Minimal =
        (caps.foldl (processCapture content)
          (initState filePath symbolType)).symbol := by
      unfold attachSignature
      cases (caps.foldl (processCapture content)
          (initState filePath symbolType)).mainNode with
      | some mn => simp [DetailLevel.toNat]
      | none => rfl
    rw [hatt]
    unfold fallbackSpan
    cases (caps.foldl (processCapture content)
        (initState filePath symbolType)).mainNode with
    | some mn => simpa using hsig
    | none =>
      cases (caps.foldl (processCapture content)
          (initState filePath symbolType)).nameNode with
      | some nn => simpa using hsig
      | none => simpa using hsig
  · have hstd : extractSignature node content .Standard =
        extractDeclarationSignature content node.startByte node.endByte := by
      simp [extractSignature]
    have hfull : extractSignature node content .Full =
        trimChars (slice content node.startByte node.endByte) := by
      simp [extractSignature]
    rw [hstd, hfull, scan_characterization]
    cases hf : (List.range' node.startByte
        (min node.endByte content.length - node.startByte)).find?
        (goodAt content node.startByte) with
    | none => exact pre_refl _
    | some i =>
      have hmem := List.mem_of_find?_eq_some hf
      have hrange := List.mem_range'_1.mp hmem
      have hie : i ≤ node.endByte := by
        have h3 : min node.endByte content.length ≤ node.endByte :=
          Nat.min_le_left _ _
        omega
      exact trim_mono (slice_mono content node.startByte hie)

/-- C8: every category key of every language's query table is mapped by
`mapSymbolKind` through the fixed table to one of the normalized kind
tags; no category falls through to its raw string. -/
theorem c8_kind_mapping_total :
    allQueryCategories.all
      (fun c => normalizedKinds.contains (mapSymbolKind c) &&
        (kindPairs.find? (fun p => p.1 = c)).isSome) = true := by
  decide

/-- C9: at Standard detail, a symbol with nonempty signature renders as
"- kind: signature", except var/const symbols, which render as
"- kind: name signature" when the signature differs from the name and as
"- kind: name" when it equals it; an empty signature renders as
"- kind: name (lines start-end)". -/
theorem c9_standard_rendering (sym : Symbol) :
    (sym.Signature ≠ "" → ¬(sym.Kind = "var" ∨ sym.Kind = "const") →
      formatSymbol sym .Standard 0 =
        "- " ++ sym.Kind ++ ": " ++ sym.Signature ++ "\n") ∧
    (sym.Signature ≠ "" → (sym.Kind = "var" ∨ sym.Kind = "const") →
      sym.Signature ≠ sym.Name →
      formatSymbol sym .Standard 0 =
        "- " ++ sym.Kind ++ ": " ++ sym.Name ++ " " ++
          sym.Signature ++ "\n") ∧
    (sym.Signature ≠ "" → (sym.Kind = "var" ∨ sym.Kind = "const") →
      sym.Signature = sym.Name →
      formatSymbol sym .Standard 0 =
        "- " ++ sym.Kind ++ ": " ++ sym.Name ++ "\n") ∧
    (sym.Signature = "" →
      formatSymbol sym .Standard 0 =
        "- " ++ sym.Kind ++ ": " ++ sym.Name ++ " (lines " ++
          toString sym.StartLine ++ "-" ++ toString sym.EndLine ++
          ")\n") := by
  have h0 : String.join (List.replicate 0 "  ") = "" := rfl
  refine ⟨?_, ?_, ?_, ?_⟩ <;>
    · intros
      simp_all [formatSymbol, h0]

/-- C9 witness: a constant whose Standard signature equals its bare name
renders without duplication. -/
theorem c9_standard_rendering_witness :
    formatSymbol
      { Name := "x", Kind := "const", StartLine := 1,
        EndLine := 1, Signature := "x", FilePath := "a.go" }
      .Standard 0 = "- " ++ "const" ++ ": " ++ "x" ++ "\n" :=
  (c9_standard_rendering
      { Name := "x", Kind := "const", StartLine := 1, EndLine := 1,
        Signature := "x", FilePath := "a.go" }).2.2.1
    (by decide) (Or.inr rfl) rfl

/-- C10: a match with a name capture but no declaration-root capture
yields an empty signature even at Full detail, and the formatter renders
a Full-detail symbol with empty signature as the bare header line with no
fenced code block after it. -/
theorem c10_full_empty_signature (sym : Symbol)
    (caps : List (String × Node)) (content : List Char)
    (filePath symbolType : String) :
    ((∀ p ∈ caps, rootTags.contains p.1 = false) →
      (extractSymbolFromMatch caps content filePath symbolType
          .Full).Signature = "") ∧
    (sym.Signature = "" →
      formatSymbol sym .Full 0 =
        "- " ++ sym.Kind ++ " (lines " ++ toString sym.StartLine ++ "-" ++
          toString sym.EndLine ++ "):\n") := by
  constructor
  · intro h
    have hflr := flr_none caps h
    have hr := fold_root content caps (initState filePath symbolType)
    rw [hflr] at hr
    simp only [Prod.mk.injEq] at hr
    obtain ⟨hmn, -, -⟩ := hr
    have hmn0 : (caps.foldl (processCapture content)
        (initState filePath symbolType)).mainNode = none := hmn
    have hsig : (caps.foldl (processCapture content)
        (initState filePath symbolType)).symbol.Signature = "" :=
      fold_sig content caps (initState filePath symbolType)
    simp only [extractSymbolFromMatch]
    have hatt : attachSignature
        (caps.foldl (processCapture content) (initState filePath symbolType))
        content .Full =
        (caps.foldl (processCapture content)
          (initState filePath symbolType)).symbol := by
      unfold attachSignature
      rw [hmn0]
    rw [hatt]
    unfold fallbackSpan
    rw [hmn0]
    cases (caps.foldl (processCapture content)
        (initState filePath symbolType)).nameNode with
    | some nn => simpa using hsig
    | none => simpa using hsig
  · intro h
    have hj : String.join ([] : List String) = "" := rfl
    have hemp : ∀ s : String, "" ++ s = s := fun _ => rfl
    simp [formatSymbol, h, hj, hemp]

/-- C10 witness: an arrow-function style match (name capture only, outer
capture not a root tag) gets an empty signature at Full detail, and the
formatter emits only the header line for it. -/
theorem c10_full_empty_signature_witness :
    (extractSymbolFromMatch
        [("name", ⟨0, 1, 0, 0⟩), ("var_arrow_func", ⟨0, 5, 0, 2⟩)]
        ['x'] "f.js" "arrow_functions" .Full).Signature = "" ∧
    formatSymbol
      { Name := "x", Kind := "func", StartLine := 1,
        EndLine := 3, Signature := "", FilePath := "f.js" }
      .Full 0 =
      "- " ++ "func" ++ " (lines " ++ toString (1 : Nat) ++ "-" ++
        toString (3 : Nat) ++ "):\n" :=
  ⟨(c10_full_empty_signature
      { Name := "x", Kind := "func", StartLine := 1, EndLine := 3,
        Signature := "", FilePath := "f.js" }
      [("name", ⟨0, 1, 0, 0⟩), ("var_arrow_func", ⟨0, 5, 0, 2⟩)]
      ['x'] "f.js" "arrow_functions").1 (by decide),
   (c10_full_empty_signature
      { Name := "x", Kind := "func", StartLine := 1, EndLine := 3,
        Signature := "", FilePath := "f.js" }
      [] ['x'] "f.js" "arrow_functions").2 rfl⟩

end Glyph
